import Mathlib

/-!
# Verification of the resume parsing and scoring core (`resume_parser.py`)

Shallow embedding of the pure core of the repository: the experience
estimator (`_get_experience_years`), the skill detector (`_find_skills`),
and the scoring pipeline (`parse_and_score_resume`).  Texts are embedded as
`List Char`; the regular-expression searches of the source are embedded as
explicit position-by-position scanners with Python `re` semantics (word
boundaries, non-overlapping `findall` scanning, `IGNORECASE` where the
source sets it).  `datetime.now().year` is passed explicitly as a
`currentYear : Int` parameter.  Python floats are embedded as `ℚ` (every
comparison performed by the source is order-theoretic, so the branch
structure is unaffected).  The PDF decoding performed by `fitz` is external
I/O and is embedded as an abstract document that either yields raw text or
raises (the `try/except` of `_extract_text_from_pdf`).
-/

namespace ResumeParser

/-- A word character in the sense of the regex `\b` assertion (`\w`):
ASCII letters, digits, or underscore.  All catalog entries and all texts
considered here are ASCII, where Python's Unicode `\w` coincides with this. -/
def isWordChar (c : Char) : Bool :=
  c.isAlphanum || c = '_'

/-- A whitespace character in the sense of the regex `\s` class (ASCII part). -/
def isSpaceChar (c : Char) : Bool :=
  c = ' ' || c = '\t' || c = '\n' || c = '\x0d' || c = '\x0b' || c = '\x0c'

/-- The character class `[-–—to]` of the range regex, under `re.IGNORECASE`:
hyphen, en-dash, em-dash, or one of the letters `t`, `o` (either case). -/
def isRangeSep (c : Char) : Bool :=
  c = '-' || c = '–' || c = '—' || c = 't' || c = 'o' || c = 'T' || c = 'O'

/-- Whether position `i` of `s` holds a word character (`false` past the end). -/
def wordAt (s : List Char) (i : Nat) : Bool :=
  match s[i]? with
  | some c => isWordChar c
  | none => false

/-- Whether the position just before `i` holds a word character
(`false` at the start of the string). -/
def prevWord (s : List Char) (i : Nat) : Bool :=
  match i with
  | 0 => false
  | j + 1 => wordAt s j

/-- The regex word-boundary assertion `\b` at position `i`: exactly one of
the two adjacent positions holds a word character. -/
def boundary (s : List Char) (i : Nat) : Bool :=
  prevWord s i != wordAt s i

/-- Parse the four characters starting at `i` as a `20\d{2}` year.
Returns the year value when `s[i] = '2'`, `s[i+1] = '0'` and the next two
characters are digits. -/
def yearAt (s : List Char) (i : Nat) : Option Int :=
  match s[i]?, s[(i+1)]?, s[(i+2)]?, s[(i+3)]? with
  | some c0, some c1, some c2, some c3 =>
    if c0 = '2' && c1 = '0' && c2.isDigit && c3.isDigit then
      some ((2000 : Int) + 10 * (c2.toNat - 48) + (c3.toNat - 48))
    else none
  | _, _, _, _ => none

/-- A standalone year token `\b20\d{2}\b` at position `i`. -/
def yearTokenAt (s : List Char) (i : Nat) : Option Int :=
  match yearAt s i with
  | some y => if boundary s i && boundary s (i + 4) then some y else none
  | none => none

/-- Non-overlapping left-to-right scan for `\b20\d{2}\b`
(the fallback `re.findall` of `_get_experience_years`).  On a match the
scan resumes after its four characters, otherwise at the next position.
`fuel` bounds the recursion; it only needs to exceed the number of scan
steps, which consume at least one position each. -/
def scanYears (s : List Char) : Nat → Nat → List Int
  | 0, _ => []
  | fuel + 1, i =>
    match s[i]? with
    | none => []
    | some _ =>
      match yearTokenAt s i with
      | some y => y :: scanYears s fuel (i + 4)
      | none => scanYears s fuel (i + 1)

/-- All standalone `\b20\d{2}\b` year tokens of `s`, in order. -/
def findYears (s : List Char) : List Int :=
  scanYears s (s.length + 1) 0

/-- The end token of a date range: either a parsed `20\d{2}` year or the
literal `present` / `current` (matched case-insensitively). -/
inductive EndTok where
  | year (y : Int)
  | presentTok
  | currentTok
deriving DecidableEq, Repr

/-- First position `≥ i` holding a non-whitespace character (or the end).
Embeds a greedy `\s*`; in the range regex both `\s*` occurrences are
deterministic because no alternative for the following atom is whitespace. -/
def skipSpacesAux : Nat → List Char → Nat → Nat
  | 0, _, i => i
  | fuel + 1, s, i =>
    match s[i]? with
    | some c => if isSpaceChar c then skipSpacesAux fuel s (i + 1) else i
    | none => i

def skipSpaces (s : List Char) (i : Nat) : Nat :=
  skipSpacesAux s.length s i

/-- Case-insensitive literal match of `w` at position `i` of `s`
(`w` is given lowercase; the text character is lowered before comparing). -/
def lowerMatch (s : List Char) (i : Nat) : List Char → Bool
  | [] => true
  | c :: cs =>
    match s[i]? with
    | some d => d.toLower = c && lowerMatch s (i + 1) cs
    | none => false

/-- Match the end alternative `(\b(20\d{2}|present|current)\b)` at
position `k`; returns the position after the match and the token. -/
def matchEndTok (s : List Char) (k : Nat) : Option (Nat × EndTok) :=
  match yearAt s k with
  | some y => if boundary s (k + 4) then some (k + 4, EndTok.year y) else none
  | none =>
    if lowerMatch s k ['p','r','e','s','e','n','t'] && boundary s (k + 7) then
      some (k + 7, EndTok.presentTok)
    else if lowerMatch s k ['c','u','r','r','e','n','t'] && boundary s (k + 7) then
      some (k + 7, EndTok.currentTok)
    else none

/-- Match the whole range pattern
`(\b(20\d{2})\b)\s*[-–—to]\s*(\b(20\d{2}|present|current)\b)` at
position `i`; returns the position after the match, the start year and the
end token. -/
def matchRangeAt (s : List Char) (i : Nat) : Option (Nat × Int × EndTok) :=
  match yearAt s i with
  | none => none
  | some sy =>
    if boundary s i && boundary s (i + 4) then
      let j := skipSpaces s (i + 4)
      match s[j]? with
      | some c =>
        if isRangeSep c then
          let k := skipSpaces s (j + 1)
          if boundary s k then
            match matchEndTok s k with
            | some (e, tok) => some (e, sy, tok)
            | none => none
          else none
        else none
      | none => none
    else none

/-- Non-overlapping left-to-right scan for the range pattern
(the first `re.findall` of `_get_experience_years`).  A match is at least
nine characters long, so `fuel = s.length + 1` never runs out. -/
def scanRanges (s : List Char) : Nat → Nat → List (Int × EndTok)
  | 0, _ => []
  | fuel + 1, i =>
    match s[i]? with
    | none => []
    | some _ =>
      match matchRangeAt s i with
      | some (e, sy, tok) => (sy, tok) :: scanRanges s fuel e
      | none => scanRanges s fuel (i + 1)

/-- All matches of the explicit date-range pattern, as
(start year, end token) pairs, in order. -/
def findRanges (s : List Char) : List (Int × EndTok) :=
  scanRanges s (s.length + 1) 0

/-- Duration `end_year - start_year` of a match, resolving
`present`/`current` to the current calendar year. -/
def duration (currentYear : Int) : Int × EndTok → Int
  | (sy, EndTok.year ey) => ey - sy
  | (sy, EndTok.presentTok) => currentYear - sy
  | (sy, EndTok.currentTok) => currentYear - sy

/-- Embedding of `_get_experience_years`.  When the range pattern matches,
the maximum duration is accumulated exactly as the source loop does
(starting from 0) and clamped to at least 1; otherwise the standalone-year
fallback applies: 0 with no year, 1 with a single distinct year, and
max − min over the sorted distinct years otherwise. -/
def getExperienceYears (currentYear : Int) (s : List Char) : Int :=
  let year_ranges := findRanges s
  if year_ranges.isEmpty then
    let years := findYears s
    if years.isEmpty then 0
    else
      let unique_years := years.dedup.insertionSort (· ≤ ·)
      if 1 < unique_years.length then
        (unique_years.getLast?.getD 0) - (unique_years.head?.getD 0)
      else 1
  else
    let max_duration :=
      year_ranges.foldl
        (fun m r => if duration currentYear r > m then duration currentYear r else m) 0
    if max_duration > 0 then max_duration else 1

/-- Literal occurrence of `w` at position `i` of `s`. -/
def occurrenceAt (s : List Char) (i : Nat) (w : List Char) : Bool :=
  (s.drop i).take w.length == w

/-- Python substring containment (`keyword in text`). -/
def containsSubstr (s w : List Char) : Bool :=
  (List.range (s.length + 1)).any (fun i => occurrenceAt s i w)

/-- Embedding of `re.search(r'\b' + re.escape(skill) + r'\b', text)`:
the escaped skill is a literal, so a match is an occurrence of the skill
with the `\b` assertion holding at both ends. -/
def skillFound (s w : List Char) : Bool :=
  (List.range (s.length + 1)).any (fun i =>
    occurrenceAt s i w && boundary s i && boundary s (i + w.length))

/-- The master skill database `SKILLS_DB`, verbatim from the source. -/
def SKILLS_DB : List String :=
  ["python", "java", "c++", "sql", "javascript", "html", "css", "git", "docker", "kubernetes",
   "aws", "azure", "gcp", "react", "angular", "vue", "django", "flask", "fastapi",
   "tensorflow", "pytorch", "scikit-learn", "pandas", "numpy", "matplotlib", "seaborn",
   "tableau", "power bi", "excel", "r", "ci/cd", "jenkins", "ansible", "terraform", "nlp",
   "computer vision", "apache spark", "hadoop", "airflow", "aws redshift", "etl"]

/-- Embedding of `_find_skills`: collect the database entries found in the
text, then `sorted(list(set(...)))`. -/
def findSkills (s : List Char) : List String :=
  ((SKILLS_DB.filter (fun skill => skillFound s skill.data)).dedup).insertionSort (· ≤ ·)

/-- One entry of the role catalog `JOB_ROLES`. -/
structure RoleProfile where
  experience_range : Int × Int
  mandatory_keywords : List String
  positive_keywords : List String
deriving Repr, DecidableEq

/-- The role catalog `JOB_ROLES`, verbatim from the source
(an association list, preserving the insertion order of the Python dict). -/
def JOB_ROLES : List (String × RoleProfile) :=
  [("Data Analyst",
    { experience_range := (1, 5),
      mandatory_keywords := ["sql", "excel", "tableau", "power bi"],
      positive_keywords := ["analyst", "analytics", "dashboard", "reporting", "python", "r",
                            "statistics", "visualization", "data engineer", "etl"] }),
   ("Junior Developer",
    { experience_range := (0, 3),
      mandatory_keywords := ["python", "git", "sql"],
      positive_keywords := ["developer", "software", "engineer", "code", "programming",
                            "flask", "django", "api"] }),
   ("DevOps Engineer",
    { experience_range := (2, 7),
      mandatory_keywords := ["aws", "docker", "kubernetes", "ci/cd", "terraform"],
      positive_keywords := ["devops", "infrastructure", "automation", "cloud", "sysadmin",
                            "jenkins", "ansible"] }),
   ("Machine Learning Engineer",
    { experience_range := (2, 8),
      mandatory_keywords := ["python", "tensorflow", "pytorch", "scikit-learn", "sql"],
      positive_keywords := ["machine learning", "ml", "ai", "artificial intelligence",
                            "deep learning", "nlp", "computer vision"] }),
   ("Frontend Developer",
    { experience_range := (1, 6),
      mandatory_keywords := ["html", "css", "javascript", "react", "git"],
      positive_keywords := ["frontend", "ui", "ux", "web developer", "angular", "vue",
                            "typescript"] })]

/-- The analysis record returned by `parse_and_score_resume`
(field names follow the keys of the returned dict). -/
structure ScoredResult where
  Total_Score_Bias_Free : ℚ
  F_semantic_scaled : ℚ
  F_keyword_scaled : ℚ
  Recommendation : String
  Explanation : String
  Skill_Gaps : List String
  Top_Skills : List String
deriving Repr, DecidableEq

/-- The scoring body of `parse_and_score_resume` (everything after the
text has been extracted and found non-empty). -/
def scoreResume (currentYear : Int) (role_reqs : RoleProfile) (text : List Char) :
    ScoredResult :=
  let extracted_experience := getExperienceYears currentYear text
  let extracted_skills := findSkills text
  let semantic_score : Nat :=
    role_reqs.positive_keywords.countP (fun keyword => containsSubstr text keyword.data)
  let semantic_score_scaled : ℚ := min (((semantic_score : ℚ) / 5) * 100) 100
  let keywords_found : Nat :=
    role_reqs.mandatory_keywords.countP (fun req_skill => decide (req_skill ∈ extracted_skills))
  let skill_gaps : List String :=
    role_reqs.mandatory_keywords.filter (fun req_skill => decide (req_skill ∉ extracted_skills))
  let keyword_score_scaled : ℚ :=
    ((keywords_found : ℚ) / (role_reqs.mandatory_keywords.length : ℚ)) * 100
  let total_score : ℚ := semantic_score_scaled * (1/2) + keyword_score_scaled * (1/2)
  let exp_min := role_reqs.experience_range.1
  let exp_max := role_reqs.experience_range.2
  let recommendation_explanation : String × String :=
    if extracted_experience > exp_max then
      ("Potential Fit (Overqualified)",
       "Candidate has ~" ++ toString extracted_experience ++
         " years of experience, exceeding the role\x27s maximum of " ++
         toString exp_max ++ " years.")
    else if extracted_experience < exp_min then
      ("Not a Fit (Underqualified)",
       "Candidate has only ~" ++ toString extracted_experience ++
         " years of experience, below the minimum " ++ toString exp_min ++
         " years required.")
    else if total_score ≥ 80 then
      ("Strong Fit",
       "Candidate\x27s ~" ++ toString extracted_experience ++
         " years of experience is a perfect match for this role, with strong keyword alignment.")
    else if total_score ≥ 60 then
      ("Good Fit",
       "Candidate meets the experience criteria and has a good set of matching skills.")
    else
      ("Near-Fit Candidate (Offer Learning Path)",
       "Candidate meets the experience criteria but has some skill gaps that could be addressed with training.")
  { Total_Score_Bias_Free := total_score,
    F_semantic_scaled := semantic_score_scaled,
    F_keyword_scaled := keyword_score_scaled,
    Recommendation := recommendation_explanation.1,
    Explanation := recommendation_explanation.2,
    Skill_Gaps := skill_gaps,
    Top_Skills := extracted_skills }

/-- A PDF document as seen through `fitz`: either it decodes to some raw
text (the page-concatenated extraction), or opening/decoding it raises. -/
inductive PdfDoc where
  | readable (rawText : String)
  | unreadable
deriving Repr, DecidableEq

/-- Embedding of `_extract_text_from_pdf`: the extracted text is
lower-cased character by character (`text.lower()` on the ASCII texts
considered here); any decoding exception is caught and turned into the
empty string (after printing a message, which has no further effect). -/
def extract_text_from_pdf : PdfDoc → List Char
  | PdfDoc.readable rawText => rawText.data.map Char.toLower
  | PdfDoc.unreadable => []

/-- Outcome of a successful (non-raising) call: either the error dict
`{"error": ...}` returned on empty text, or the full analysis record. -/
inductive AnalysisOutcome where
  | errorDict (msg : String)
  | result (r : ScoredResult)
deriving Repr, DecidableEq

/-- Embedding of `parse_and_score_resume`.  `Except.error msg` embeds
`raise ValueError(msg)`. -/
def parse_and_score_resume (currentYear : Int) (doc : PdfDoc) (role_name : String) :
    Except String AnalysisOutcome :=
  match JOB_ROLES.lookup role_name with
  | none => Except.error ("Invalid role \x27" ++ role_name ++ "\x27.")
  | some role_reqs =>
    let text := extract_text_from_pdf doc
    if text.isEmpty then
      Except.ok (AnalysisOutcome.errorDict "Could not read text from the resume file.")
    else
      Except.ok (AnalysisOutcome.result (scoreResume currentYear role_reqs text))

/-! ## General lemmas about the embedded operations -/

/-- A skill is in the detector output iff it is a catalog entry and the
boundary-delimited search succeeds on the text. -/
theorem mem_findSkills_iff (s : List Char) (sk : String) :
    sk ∈ findSkills s ↔ sk ∈ SKILLS_DB ∧ skillFound s sk.data = true := by
  unfold findSkills
  rw [List.mem_insertionSort, List.mem_dedup, List.mem_filter]

/-- Characters of an occurrence agree with the pattern, position by position. -/
theorem occurrenceAt_getElem? {s w : List Char} {i : Nat}
    (h : occurrenceAt s i w = true) {j : Nat} (hj : j < w.length) :
    s[(i + j)]? = w[j]? := by
  unfold occurrenceAt at h
  have he : (s.drop i).take w.length = w := beq_iff_eq.mp h
  calc s[(i + j)]? = (s.drop i)[j]? := (List.getElem?_drop s i j).symm
    _ = ((s.drop i).take w.length)[j]? := by rw [List.getElem?_take, if_pos hj]
    _ = w[j]? := by rw [he]

theorem prevWord_succ (s : List Char) (j : Nat) : prevWord s (j + 1) = wordAt s j := rfl

/-- Unfolding of a successful boundary-delimited search. -/
theorem skillFound_elim {s w : List Char} (h : skillFound s w = true) :
    ∃ i, i < s.length + 1 ∧ occurrenceAt s i w = true ∧
      boundary s i = true ∧ boundary s (i + w.length) = true := by
  unfold skillFound at h
  rw [List.any_eq_true] at h
  obtain ⟨i, hir, hp⟩ := h
  rw [List.mem_range] at hir
  simp only [Bool.and_eq_true] at hp
  exact ⟨i, hir, hp.1.1, hp.1.2, hp.2⟩

/-- A successful association-list lookup comes from a member pair. -/
theorem mem_of_lookup_eq_some {α β : Type} [BEq α] [LawfulBEq α]
    {l : List (α × β)} {k : α} {v : β} (h : l.lookup k = some v) : (k, v) ∈ l := by
  induction l with
  | nil => simp [List.lookup] at h
  | cons p t ih =>
    obtain ⟨a, b⟩ := p
    rw [List.lookup] at h
    split at h
    · next heq =>
      rw [Option.some_inj] at h
      have : k = a := beq_iff_eq.mp heq
      subst this; subst h
      exact List.mem_cons_self _ _
    · exact List.mem_cons_of_mem _ (ih h)

/-- Whole-word containment: the pattern occurs at some position with no
word character immediately before it and none immediately after it. -/
def ContainsWholeWord (s w : List Char) : Prop :=
  ∃ i < s.length + 1, (s.drop i).take w.length = w ∧
    prevWord s i = false ∧ wordAt s (i + w.length) = false

instance decidableContainsWholeWord (s w : List Char) : Decidable (ContainsWholeWord s w) := by
  unfold ContainsWholeWord
  infer_instance

/-- Whether a pattern both starts and ends with a word character. -/
def wordEnds (w : List Char) : Bool :=
  match w.head?, w.getLast? with
  | some a, some b => isWordChar a && isWordChar b
  | _, _ => false

/-- For a pattern that starts and ends with word characters, whole-word
containment makes the boundary-delimited search succeed. -/
theorem skillFound_of_containsWholeWord {s w : List Char}
    (hends : wordEnds w = true) (h : ContainsWholeWord s w) :
    skillFound s w = true := by
  obtain ⟨i, hi, hocc, hprev, hafter⟩ := h
  have hoccB : occurrenceAt s i w = true := beq_iff_eq.mpr hocc
  unfold wordEnds at hends
  cases hh : w.head? with
  | none => rw [hh] at hends; simp at hends
  | some a =>
    cases hl : w.getLast? with
    | none => rw [hh, hl] at hends; simp at hends
    | some b =>
      rw [hh, hl] at hends
      simp only [Bool.and_eq_true] at hends
      obtain ⟨ha, hb⟩ := hends
      have hw_ne : w ≠ [] := by
        intro hnil; rw [hnil] at hh; simp at hh
      have hlen : 0 < w.length := List.length_pos.mpr hw_ne
      -- the first character of the occurrence is a word character
      have h0 : s[(i + 0)]? = w[0]? := occurrenceAt_getElem? hoccB hlen
      have hfirst : wordAt s i = true := by
        unfold wordAt
        rw [show i = i + 0 from rfl] at h0 ⊢
        rw [h0, ← List.head?_eq_getElem?, hh]
        exact ha
      -- the last character of the occurrence is a word character
      obtain ⟨m, hm⟩ : ∃ m, w.length = m + 1 :=
        ⟨w.length - 1, (Nat.succ_pred_eq_of_pos hlen).symm⟩
      have hmlt : m < w.length := by omega
      have hlastc : s[(i + m)]? = w[m]? := occurrenceAt_getElem? hoccB hmlt
      have hwm : w[m]? = some b := by
        rw [← hl, List.getLast?_eq_getElem?, hm]
        simp
      have hlast : wordAt s (i + m) = true := by
        unfold wordAt; rw [hlastc, hwm]; exact hb
      -- both boundaries hold
      have hb1 : boundary s i = true := by
        unfold boundary; rw [hprev, hfirst]; rfl
      have hb2 : boundary s (i + w.length) = true := by
        have hstep : i + w.length = (i + m) + 1 := by omega
        unfold boundary
        rw [hstep, prevWord_succ, hlast, ← hstep, hafter]
        rfl
      unfold skillFound
      rw [List.any_eq_true]
      exact ⟨i, List.mem_range.mpr hi, by rw [hoccB, hb1, hb2]; rfl⟩

/-! ## Claims -/

/-- C1: the spec (and the comment above the range regex in the source)
says the word "to" is accepted as a range separator, so that a text
containing "2018 to Present" (and no other year range) yields
`current year - 2018`.  In the source, `[-–—to]` is a character class
matching a single character, so "2018 to present" matches no range pattern
at all; the estimator falls back to the standalone-year rule and, with the
single distinct year 2018, returns 1 for every current year. -/
theorem to_separator_not_matched (currentYear : Int) :
    findRanges ("2018 to present".data) = [] ∧
    getExperienceYears currentYear ("2018 to present".data) = 1 := by
  exact ⟨rfl, rfl⟩

/-- C2 counterexample: the claim says the single-letter skill "r" is NOT
reported for the text "r&d team"; in the source, `&` is a non-word
character, so `\br\b` matches at the `r` of `r&d` and the detector does
report "r". -/
theorem r_detected_in_rd_team : "r" ∈ findSkills ("r&d team".data) := by decide

/-- C2 (amended): skill detection is word-boundary based: a catalog entry
made of word characters is never reported when each of its occurrences is
adjacent to a further word character (in particular it is never reported
when it occurs only inside a longer word, as "r" in "reporting"); but a
non-word character such as `&` counts as a token boundary, so "r&d team"
DOES report "r", and "proficient in r for statistics" reports it too. -/
theorem find_skills_word_boundary :
    (∀ (text : List Char) (sk : String), sk.data ≠ [] →
        (∀ c ∈ sk.data, isWordChar c = true) →
        (∀ i, i < text.length + 1 → occurrenceAt text i sk.data = true →
            prevWord text i = true ∨ wordAt text (i + sk.data.length) = true) →
        sk ∉ findSkills text) ∧
    "r" ∈ findSkills ("r&d team".data) ∧
    "r" ∈ findSkills ("proficient in r for statistics".data) := by
  refine ⟨?_, by decide, by decide⟩
  intro text sk hne hchars hocc hmem
  rw [mem_findSkills_iff] at hmem
  obtain ⟨-, hfound⟩ := hmem
  obtain ⟨i, hir, hoc, hb1, hb2⟩ := skillFound_elim hfound
  -- the first character of the occurrence is a word character,
  -- so the left boundary forces a non-word character before it
  obtain ⟨a, t, hw⟩ := List.exists_cons_of_ne_nil hne
  have hlen : 0 < sk.data.length := List.length_pos.mpr hne
  have h0 : text[(i + 0)]? = sk.data[0]? := occurrenceAt_getElem? hoc hlen
  have hw0 : sk.data[0]? = some a := by rw [hw, List.getElem?_cons_zero]
  have hfirst : wordAt text i = true := by
    unfold wordAt
    rw [show i = i + 0 from rfl, h0, hw0]
    exact hchars a (List.getElem?_mem hw0)
  have hprev : prevWord text i = false := by
    rw [boundary, hfirst] at hb1
    cases hpw : prevWord text i with
    | false => rfl
    | true => rw [hpw] at hb1; simp at hb1
  -- the last character of the occurrence is a word character,
  -- so the right boundary forces a non-word character after it
  obtain ⟨m, hm⟩ : ∃ m, sk.data.length = m + 1 :=
    ⟨sk.data.length - 1, (Nat.succ_pred_eq_of_pos hlen).symm⟩
  have hmlt : m < sk.data.length := by omega
  have hlastc : text[(i + m)]? = sk.data[m]? := occurrenceAt_getElem? hoc hmlt
  obtain ⟨b, hbm⟩ : ∃ b, sk.data[m]? = some b :=
    ⟨sk.data.get ⟨m, hmlt⟩, by simp [List.getElem?_eq_getElem hmlt]⟩
  have hblast : wordAt text (i + m) = true := by
    unfold wordAt
    rw [hlastc, hbm]
    exact hchars b (List.getElem?_mem hbm)
  have hafter : wordAt text (i + sk.data.length) = false := by
    have hstep : i + sk.data.length = (i + m) + 1 := by omega
    rw [boundary, hstep, prevWord_succ, hblast] at hb2
    cases hwa : wordAt text ((i + m) + 1) with
    | false => rw [hstep]; exact hwa
    | true => rw [hwa] at hb2; simp at hb2
  rcases hocc i hir hoc with hc | hc
  · rw [hprev] at hc; exact absurd hc (by decide)
  · rw [hafter] at hc; exact absurd hc (by decide)

/-- C2 (amended) witness: the code-comment example — "r" occurs in
"reporting" only inside the longer word, so it is not reported there. -/
theorem find_skills_word_boundary_witness : "r" ∉ findSkills ("reporting".data) :=
  find_skills_word_boundary.1 ("reporting".data) "r" (by decide) (by decide) (by decide)

/-- C9: the trailing `\b` of the pattern built for the catalog skill
"c++" sits after the final `+`, a non-word character, so it holds only
when the very next text character is a word character.  Hence whenever
every occurrence of "c++" is followed by a non-word character or by the
end of the text, the detector omits "c++". -/
theorem cpp_needs_following_word_char (text : List Char)
    (h : ∀ i, i < text.length + 1 → occurrenceAt text i ("c++".data) = true →
        wordAt text (i + 3) = false) :
    "c++" ∉ findSkills text := by
  intro hmem
  rw [mem_findSkills_iff] at hmem
  obtain ⟨-, hfound⟩ := hmem
  obtain ⟨i, hir, hoc, -, hb2⟩ := skillFound_elim hfound
  have h2 : text[(i + 2)]? = some '+' := by
    have hw2 : ("c++".data)[2]? = some '+' := rfl
    have := occurrenceAt_getElem? hoc (j := 2) (by decide)
    rw [hw2] at this
    exact this
  have hprev : prevWord text (i + 3) = false := by
    have hstep : i + 3 = (i + 2) + 1 := rfl
    rw [hstep, prevWord_succ]
    unfold wordAt
    rw [h2]
    rfl
  have hafter : wordAt text (i + 3) = false := h i hir hoc
  have hlen3 : ("c++".data).length = 3 := rfl
  rw [boundary, hlen3, hprev, hafter] at hb2
  exact absurd hb2 (by decide)

/-- C9 witness: in "c++ developer" the occurrence of "c++" is followed by
a space, so the detector omits "c++". -/
theorem cpp_needs_following_word_char_witness :
    "c++" ∉ findSkills ("c++ developer".data) :=
  cpp_needs_following_word_char ("c++ developer".data) (by decide)

/-- C3 counterexample: the claim says an undecodable document is fatal to
the request (an `UnreadableDocument` failure distinct from the empty-text
result object).  In the source, `_extract_text_from_pdf` catches the
decoding exception and returns the empty string, so `parse_and_score_resume`
on an unreadable document returns the same non-raising error-dict result
as on a readable document with no text. -/
theorem decode_failure_not_fatal :
    parse_and_score_resume 2026 PdfDoc.unreadable "Data Analyst" =
      Except.ok (AnalysisOutcome.errorDict "Could not read text from the resume file.") ∧
    parse_and_score_resume 2026 PdfDoc.unreadable "Data Analyst" =
      parse_and_score_resume 2026 (PdfDoc.readable "") "Data Analyst" :=
  ⟨rfl, rfl⟩

/-- C3 (amended): analyze does not distinguish a decode failure from empty
extracted text: for every known role, both an unreadable document and a
readable document with empty text produce the same successful return
carrying an error message and no scores; no error is raised. -/
theorem decode_failure_equals_empty_text (currentYear : Int) (role_name : String)
    (role_reqs : RoleProfile) (h : JOB_ROLES.lookup role_name = some role_reqs) :
    parse_and_score_resume currentYear PdfDoc.unreadable role_name =
      Except.ok (AnalysisOutcome.errorDict "Could not read text from the resume file.") ∧
    parse_and_score_resume currentYear PdfDoc.unreadable role_name =
      parse_and_score_resume currentYear (PdfDoc.readable "") role_name := by
  unfold parse_and_score_resume
  rw [h]
  exact ⟨rfl, rfl⟩

/-- C3 (amended) witness at a concrete role. -/
theorem decode_failure_equals_empty_text_witness :
    parse_and_score_resume 2026 PdfDoc.unreadable "DevOps Engineer" =
      Except.ok (AnalysisOutcome.errorDict "Could not read text from the resume file.") ∧
    parse_and_score_resume 2026 PdfDoc.unreadable "DevOps Engineer" =
      parse_and_score_resume 2026 (PdfDoc.readable "") "DevOps Engineer" :=
  decode_failure_equals_empty_text 2026 "DevOps Engineer"
    { experience_range := (2, 7),
      mandatory_keywords := ["aws", "docker", "kubernetes", "ci/cd", "terraform"],
      positive_keywords := ["devops", "infrastructure", "automation", "cloud", "sysadmin",
                            "jenkins", "ansible"] } (by decide)

/-- C8: for every document and every current year, a role name that is not
a key of the role catalog makes `parse_and_score_resume` raise the
invalid-role `ValueError`; nothing else is returned. -/
theorem unknown_role_fails (currentYear : Int) (doc : PdfDoc) (role_name : String)
    (h : JOB_ROLES.lookup role_name = none) :
    parse_and_score_resume currentYear doc role_name =
      Except.error ("Invalid role \x27" ++ role_name ++ "\x27.") := by
  unfold parse_and_score_resume
  rw [h]

/-- C8 witness: "Nonexistent Role" fails on a perfectly readable document. -/
theorem unknown_role_fails_witness :
    parse_and_score_resume 2026 (PdfDoc.readable "python sql 2019-2024") "Nonexistent Role" =
      Except.error "Invalid role \x27Nonexistent Role\x27." :=
  unknown_role_fails 2026 (PdfDoc.readable "python sql 2019-2024") "Nonexistent Role" (by decide)

/-- C10: role-name validation precedes text extraction: with an unknown
role the analysis result is the invalid-role error no matter what the
document is — in particular for an unreadable document and for one with
empty text — so the unknown-role error takes precedence over the
unreadable/empty-document outcome, and the result never depends on the
document. -/
theorem unknown_role_precedes_extraction (currentYear : Int) (role_name : String)
    (h : JOB_ROLES.lookup role_name = none) :
    (∀ doc₁ doc₂ : PdfDoc,
        parse_and_score_resume currentYear doc₁ role_name =
          parse_and_score_resume currentYear doc₂ role_name) ∧
    parse_and_score_resume currentYear PdfDoc.unreadable role_name =
      Except.error ("Invalid role \x27" ++ role_name ++ "\x27.") ∧
    parse_and_score_resume currentYear (PdfDoc.readable "") role_name =
      Except.error ("Invalid role \x27" ++ role_name ++ "\x27.") := by
  unfold parse_and_score_resume
  rw [h]
  exact ⟨fun d₁ d₂ => rfl, rfl, rfl⟩

/-- C10 witness: with the unknown role "Recruiter" the unreadable document
and the empty document both surface the invalid-role error. -/
theorem unknown_role_precedes_extraction_witness :
    parse_and_score_resume 2026 PdfDoc.unreadable "Recruiter" =
      Except.error "Invalid role \x27Recruiter\x27." ∧
    parse_and_score_resume 2026 (PdfDoc.readable "") "Recruiter" =
      Except.error "Invalid role \x27Recruiter\x27." :=
  ⟨(unknown_role_precedes_extraction 2026 "Recruiter" (by decide)).2.1,
   (unknown_role_precedes_extraction 2026 "Recruiter" (by decide)).2.2⟩

/-- C4: recommendation gating, in the priority order of the source: an
experience estimate above the role maximum is always Overqualified and one
below the minimum is always Underqualified, whatever the total score; only
with the experience inside the range do the 80/60 score thresholds select
Strong Fit / Good Fit / the near-fit label. -/
theorem recommendation_priority (currentYear : Int) (role_reqs : RoleProfile)
    (text : List Char) :
    (role_reqs.experience_range.2 < getExperienceYears currentYear text →
      (scoreResume currentYear role_reqs text).Recommendation =
        "Potential Fit (Overqualified)") ∧
    (getExperienceYears currentYear text ≤ role_reqs.experience_range.2 →
      getExperienceYears currentYear text < role_reqs.experience_range.1 →
      (scoreResume currentYear role_reqs text).Recommendation =
        "Not a Fit (Underqualified)") ∧
    (role_reqs.experience_range.1 ≤ getExperienceYears currentYear text →
      getExperienceYears currentYear text ≤ role_reqs.experience_range.2 →
      80 ≤ (scoreResume currentYear role_reqs text).Total_Score_Bias_Free →
      (scoreResume currentYear role_reqs text).Recommendation = "Strong Fit") ∧
    (role_reqs.experience_range.1 ≤ getExperienceYears currentYear text →
      getExperienceYears currentYear text ≤ role_reqs.experience_range.2 →
      60 ≤ (scoreResume currentYear role_reqs text).Total_Score_Bias_Free →
      (scoreResume currentYear role_reqs text).Total_Score_Bias_Free < 80 →
      (scoreResume currentYear role_reqs text).Recommendation = "Good Fit") ∧
    (role_reqs.experience_range.1 ≤ getExperienceYears currentYear text →
      getExperienceYears currentYear text ≤ role_reqs.experience_range.2 →
      (scoreResume currentYear role_reqs text).Total_Score_Bias_Free < 60 →
      (scoreResume currentYear role_reqs text).Recommendation =
        "Near-Fit Candidate (Offer Learning Path)") := by
  refine ⟨?_, ?_, ?_, ?_, ?_⟩ <;>
    · intros
      simp only [scoreResume] at *
      split_ifs <;> first | rfl | omega | linarith

/-- C4 witness: ten years of range experience against the Junior Developer
profile (maximum 3) is Overqualified even with every keyword present. -/
theorem recommendation_priority_witness :
    (scoreResume 2026
        { experience_range := (0, 3),
          mandatory_keywords := ["python", "git", "sql"],
          positive_keywords := ["developer", "software", "engineer", "code", "programming",
                                "flask", "django", "api"] }
        ("2010 - 2020 python git sql developer software engineer code programming".data)
      ).Recommendation = "Potential Fit (Overqualified)" :=
  (recommendation_priority 2026
      { experience_range := (0, 3),
        mandatory_keywords := ["python", "git", "sql"],
        positive_keywords := ["developer", "software", "engineer", "code", "programming",
                              "flask", "django", "api"] }
      ("2010 - 2020 python git sql developer software engineer code programming".data)).1
    (by decide)

/-! ## The running-maximum fold of the estimator -/

theorem exists_max_of_ne_nil (l : List Int) (h : l ≠ []) :
    ∃ M ∈ l, ∀ x ∈ l, x ≤ M := by
  induction l with
  | nil => exact absurd rfl h
  | cons a t ih =>
    rcases eq_or_ne t [] with rfl | htne
    · refine ⟨a, List.mem_cons_self _ _, ?_⟩
      intro x hx
      simp at hx
      omega
    · obtain ⟨M, hM, hMmax⟩ := ih htne
      rcases le_total a M with hle | hle
      · refine ⟨M, List.mem_cons_of_mem _ hM, ?_⟩
        intro x hx
        rcases List.mem_cons.mp hx with rfl | hxt
        · exact hle
        · exact hMmax x hxt
      · refine ⟨a, List.mem_cons_self _ _, ?_⟩
        intro x hx
        rcases List.mem_cons.mp hx with rfl | hxt
        · exact le_refl x
        · exact le_trans (hMmax x hxt) hle

theorem foldl_runmax_init_le (l : List Int) (c : Int) :
    c ≤ l.foldl (fun m x => if x > m then x else m) c := by
  induction l generalizing c with
  | nil => exact le_refl c
  | cons a t ih =>
    simp only [List.foldl]
    calc c ≤ (if a > c then a else c) := by split <;> omega
      _ ≤ _ := ih _

theorem foldl_runmax_le (l : List Int) (c : Int) :
    ∀ x ∈ l, x ≤ l.foldl (fun m x => if x > m then x else m) c := by
  induction l generalizing c with
  | nil => intro x hx; simp at hx
  | cons a t ih =>
    intro x hx
    simp only [List.foldl]
    rcases List.mem_cons.mp hx with rfl | hxt
    · calc x ≤ (if x > c then x else c) := by split <;> omega
        _ ≤ _ := foldl_runmax_init_le t _
    · exact ih _ x hxt

theorem foldl_runmax_mem_or_init (l : List Int) (c : Int) :
    l.foldl (fun m x => if x > m then x else m) c = c ∨
      l.foldl (fun m x => if x > m then x else m) c ∈ l := by
  induction l generalizing c with
  | nil => exact Or.inl rfl
  | cons a t ih =>
    simp only [List.foldl]
    rcases ih (if a > c then a else c) with h | h
    · rw [h]
      split
      · right; exact List.mem_cons_self _ _
      · left; rfl
    · right; exact List.mem_cons_of_mem _ h

/-- C5: when at least one explicit range matches, the estimate is the
maximum of the per-match durations (with "present"/"current" resolved to
the current calendar year inside `duration`), clamped to 1 when that
maximum is zero or negative. -/
theorem experience_from_ranges (currentYear : Int) (text : List Char)
    (h : findRanges text ≠ []) :
    ∃ M : Int,
      M ∈ (findRanges text).map (duration currentYear) ∧
      (∀ d ∈ (findRanges text).map (duration currentYear), d ≤ M) ∧
      getExperienceYears currentYear text = if M ≤ 0 then 1 else M := by
  set l := (findRanges text).map (duration currentYear) with hl
  have hge : getExperienceYears currentYear text =
      if l.foldl (fun m x => if x > m then x else m) 0 > 0 then
        l.foldl (fun m x => if x > m then x else m) 0
      else 1 := by
    unfold getExperienceYears
    rw [if_neg (by simp [List.isEmpty_iff, h])]
    rw [hl, List.foldl_map]
  set F := l.foldl (fun m x => if x > m then x else m) 0 with hF
  by_cases hFpos : F > 0
  · have hmem : F ∈ l := by
      rcases foldl_runmax_mem_or_init l 0 with h0 | hm
      · rw [← hF] at h0; omega
      · rw [← hF] at hm; exact hm
    refine ⟨F, hmem, ?_, ?_⟩
    · intro d hd
      have := foldl_runmax_le l 0 d hd
      rw [← hF] at this; exact this
    · rw [hge, if_pos hFpos, if_neg (by omega)]
  · have hlne : l ≠ [] := by
      rw [hl]
      simpa [List.map_eq_nil_iff] using h
    obtain ⟨M, hMmem, hMmax⟩ := exists_max_of_ne_nil l hlne
    refine ⟨M, hMmem, hMmax, ?_⟩
    have hMF : M ≤ F := by
      have := foldl_runmax_le l 0 M hMmem
      rw [← hF] at this; exact this
    rw [hge, if_neg hFpos, if_pos (by omega)]

/-- C5 witness: "2019-2024" estimates 5 years. -/
theorem experience_from_ranges_witness :
    getExperienceYears 2026 ("2019-2024".data) = 5 ∧
    ∃ M : Int,
      M ∈ (findRanges ("2019-2024".data)).map (duration 2026) ∧
      (∀ d ∈ (findRanges ("2019-2024".data)).map (duration 2026), d ≤ M) ∧
      getExperienceYears 2026 ("2019-2024".data) = if M ≤ 0 then 1 else M :=
  ⟨by decide, experience_from_ranges 2026 ("2019-2024".data) (by decide)⟩

/-! ## Sorted lists: head is the minimum, last is the maximum -/

theorem sorted_head_le {l : List Int} (hs : l.Sorted (· ≤ ·)) {a : Int}
    (ha : l.head? = some a) : ∀ x ∈ l, a ≤ x := by
  cases l with
  | nil => simp at ha
  | cons b t =>
    rw [List.head?_cons, Option.some_inj] at ha
    subst ha
    intro x hx
    rcases List.mem_cons.mp hx with rfl | hxt
    · exact le_refl x
    · exact List.rel_of_sorted_cons hs x hxt

theorem sorted_le_getLast :
    ∀ l : List Int, l.Sorted (· ≤ ·) → ∀ b : Int, l.getLast? = some b →
      ∀ x ∈ l, x ≤ b := by
  intro l
  induction l with
  | nil => intro _ b hb; simp at hb
  | cons a t ih =>
    intro hs b hb
    cases t with
    | nil =>
      simp at hb
      subst hb
      intro x hx
      simp at hx
      omega
    | cons c u =>
      rw [List.getLast?_cons_cons] at hb
      intro x hx
      rcases List.mem_cons.mp hx with rfl | hxt
      · have hbmem : b ∈ c :: u := by
          have hne : (c :: u : List Int) ≠ [] := by simp
          rw [List.getLast?_eq_getLast _ hne, Option.some_inj] at hb
          exact hb ▸ List.getLast_mem hne
        exact List.rel_of_sorted_cons hs b hbmem
      · exact ih (List.sorted_cons.mp hs).2 b hb x hxt

/-- C6: with no range match anywhere, the estimate falls back to the
standalone year tokens: 0 when there are none, 1 when there is exactly one
distinct year, and max − min of the distinct years otherwise; the
fallback result is fully determined by the year tokens, so it never
overrides a successful range match (which this hypothesis excludes). -/
theorem experience_fallback_years (currentYear : Int) (text : List Char)
    (h : findRanges text = []) :
    (findYears text = [] → getExperienceYears currentYear text = 0) ∧
    ((findYears text).dedup.length = 1 → getExperienceYears currentYear text = 1) ∧
    (2 ≤ (findYears text).dedup.length →
      ∃ mx mn : Int,
        mx ∈ findYears text ∧ (∀ y ∈ findYears text, y ≤ mx) ∧
        mn ∈ findYears text ∧ (∀ y ∈ findYears text, mn ≤ y) ∧
        getExperienceYears currentYear text = mx - mn) := by
  have hE : (findRanges text).isEmpty = true := by simp [List.isEmpty_iff, h]
  refine ⟨?_, ?_, ?_⟩
  · intro hy
    simp only [getExperienceYears]
    rw [if_pos hE, if_pos (by simp [List.isEmpty_iff, hy])]
  · intro hone
    obtain ⟨a, ha⟩ := List.length_eq_one.mp hone
    have hyne : findYears text ≠ [] := by
      intro hnil; rw [hnil] at ha; simp at ha
    simp only [getExperienceYears]
    rw [if_pos hE, if_neg (by simp [List.isEmpty_iff, hyne]), ha]
    rfl
  · intro h2
    have hdne : (findYears text).dedup ≠ [] := by
      intro hnil; rw [hnil] at h2; simp at h2
    have hyne : findYears text ≠ [] := by
      intro hnil; rw [hnil] at hdne; simp at hdne
    have hsort : ((findYears text).dedup.insertionSort (· ≤ ·)).Sorted (· ≤ ·) :=
      List.sorted_insertionSort _ _
    have hperm : ((findYears text).dedup.insertionSort (· ≤ ·)).Perm
        (findYears text).dedup := List.perm_insertionSort _ _
    have hlen2 : 2 ≤ ((findYears text).dedup.insertionSort (· ≤ ·)).length := by
      rw [hperm.length_eq]; exact h2
    have hune : (findYears text).dedup.insertionSort (· ≤ ·) ≠ [] := by
      intro hnil; rw [hnil] at hlen2; simp at hlen2
    obtain ⟨a, t, hat⟩ := List.exists_cons_of_ne_nil hune
    have hmemiff : ∀ y : Int,
        y ∈ (findYears text).dedup.insertionSort (· ≤ ·) ↔ y ∈ findYears text :=
      fun y => by rw [hperm.mem_iff, List.mem_dedup]
    have hLne : (a :: t : List Int) ≠ [] := by simp
    have hsortat : (a :: t : List Int).Sorted (· ≤ ·) := hat ▸ hsort
    have hmax : ∀ x ∈ (a :: t : List Int), x ≤ (a :: t).getLast hLne :=
      sorted_le_getLast (a :: t) hsortat _ (List.getLast?_eq_getLast _ hLne)
    have hmin : ∀ x ∈ (a :: t : List Int), a ≤ x :=
      sorted_head_le hsortat (by rw [List.head?_cons])
    refine ⟨(a :: t).getLast hLne, a, ?_, ?_, ?_, ?_, ?_⟩
    · rw [← hmemiff, hat]
      exact List.getLast_mem hLne
    · intro y hy
      refine hmax y ?_
      rw [← hat]
      exact (hmemiff y).mpr hy
    · rw [← hmemiff, hat]
      exact List.mem_cons_self _ _
    · intro y hy
      refine hmin y ?_
      rw [← hat]
      exact (hmemiff y).mpr hy
    · simp only [getExperienceYears]
      rw [if_pos hE, if_neg (by simp [List.isEmpty_iff, hyne]), hat]
      rw [if_pos (by rw [hat] at hlen2; omega)]
      rw [List.getLast?_eq_getLast _ hLne, List.head?_cons]
      rfl

/-- C6 witness: a text mentioning only the standalone years 2020 and 2021
(no range) estimates 1 year. -/
theorem experience_fallback_years_witness :
    (∃ mx mn : Int,
      mx ∈ findYears ("2020 2021".data) ∧
      (∀ y ∈ findYears ("2020 2021".data), y ≤ mx) ∧
      mn ∈ findYears ("2020 2021".data) ∧
      (∀ y ∈ findYears ("2020 2021".data), mn ≤ y) ∧
      getExperienceYears 2026 ("2020 2021".data) = mx - mn) ∧
    getExperienceYears 2026 ("2020 2021".data) = 1 :=
  ⟨(experience_fallback_years 2026 ("2020 2021".data) (by decide)).2.2 (by decide),
   by decide⟩

theorem wordEnds_ne_nil {w : List Char} (h : wordEnds w = true) : w ≠ [] := by
  intro hnil
  rw [hnil] at h
  simp [wordEnds] at h

/-- Every role of the catalog has a non-empty mandatory-keyword list, and
each mandatory keyword is a skill-catalog entry that starts and ends with
a word character (so the whole-word search can find it). -/
theorem roles_mandatory_keywords_ok :
    ∀ p ∈ JOB_ROLES, p.2.mandatory_keywords ≠ [] ∧
      ∀ kw ∈ p.2.mandatory_keywords, kw ∈ SKILLS_DB ∧ wordEnds kw.data = true := by
  decide

/-- C7: for every supported role, analyzing a document whose extracted
text contains all of the role's mandatory keywords as whole words yields a
full (non-error) result whose keyword score is 100: each mandatory keyword
is a detectable skill-catalog entry, and the keyword score counts set
membership in the detected skills over the mandatory-keyword count. -/
theorem mandatory_keywords_give_full_keyword_score (currentYear : Int) (doc : PdfDoc)
    (role_name : String) (role_reqs : RoleProfile)
    (hrole : JOB_ROLES.lookup role_name = some role_reqs)
    (hcontains : ∀ kw ∈ role_reqs.mandatory_keywords,
        ContainsWholeWord (extract_text_from_pdf doc) kw.data) :
    ∃ r : ScoredResult,
      parse_and_score_resume currentYear doc role_name =
        Except.ok (AnalysisOutcome.result r) ∧
      r.F_keyword_scaled = 100 := by
  have hmem := mem_of_lookup_eq_some hrole
  obtain ⟨hne, hok⟩ := roles_mandatory_keywords_ok (role_name, role_reqs) hmem
  -- the extracted text is non-empty, because it contains a keyword
  obtain ⟨kw0, hkw0⟩ := List.exists_mem_of_ne_nil _ hne
  have htext_ne : extract_text_from_pdf doc ≠ [] := by
    intro hnil
    obtain ⟨i, -, hocc, -, -⟩ := hcontains kw0 hkw0
    rw [hnil] at hocc
    simp at hocc
    exact wordEnds_ne_nil (hok kw0 hkw0).2 hocc
  -- every mandatory keyword is detected
  have hdet : ∀ kw ∈ role_reqs.mandatory_keywords,
      kw ∈ findSkills (extract_text_from_pdf doc) := by
    intro kw hk
    obtain ⟨hdb, hends⟩ := hok kw hk
    exact (mem_findSkills_iff _ _).mpr
      ⟨hdb, skillFound_of_containsWholeWord hends (hcontains kw hk)⟩
  refine ⟨scoreResume currentYear role_reqs (extract_text_from_pdf doc), ?_, ?_⟩
  · simp only [parse_and_score_resume, hrole]
    rw [if_neg (by simp [List.isEmpty_iff, htext_ne])]
  · have hcount : role_reqs.mandatory_keywords.countP
        (fun req_skill => decide (req_skill ∈ findSkills (extract_text_from_pdf doc))) =
        role_reqs.mandatory_keywords.length :=
      List.countP_eq_length.mpr (fun a ha => by simpa using hdet a ha)
    have hL : (role_reqs.mandatory_keywords.length : ℚ) ≠ 0 := by
      have := List.length_pos.mpr hne
      exact_mod_cast Nat.pos_iff_ne_zero.mp this
    simp only [scoreResume]
    rw [hcount, div_self hL, one_mul]

/-- C7 witness: a Data Analyst document containing "sql excel tableau
power bi" scores 100 on the keyword component. -/
theorem mandatory_keywords_give_full_keyword_score_witness :
    ∃ r : ScoredResult,
      parse_and_score_resume 2026 (PdfDoc.readable "sql excel tableau power bi")
          "Data Analyst" =
        Except.ok (AnalysisOutcome.result r) ∧
      r.F_keyword_scaled = 100 :=
  mandatory_keywords_give_full_keyword_score 2026 (PdfDoc.readable "sql excel tableau power bi")
    "Data Analyst"
    { experience_range := (1, 5),
      mandatory_keywords := ["sql", "excel", "tableau", "power bi"],
      positive_keywords := ["analyst", "analytics", "dashboard", "reporting", "python", "r",
                            "statistics", "visualization", "data engineer", "etl"] }
    (by decide) (by decide)

end ResumeParser
